import Mathlib

/-!
Verification of the quotelementa crawler core against its specification.

The Rust sources are embedded shallowly:
* `src/state.rs`   → `Quotelementa.State` (the shared frequency aggregator),
* `src/assigner.rs` → `Quotelementa.Assigner` and `Quotelementa.read_largest_index`,
* `src/crawler.rs` → `Quotelementa.Crawler` (worker lifecycle as an event-trace model),
* `src/tui/bar_chart.rs` → `Quotelementa.BarChart`.

Machine integers are modelled as `Nat` (the claims under study involve no
overflow); fallible Rust code returns `Except`/`Option`; a Rust `panic!`
or `unwrap` on `None` is modelled by an explicit `panicked` outcome,
distinct from a returned `Err`.
-/

namespace Quotelementa

/-! ## Frequency aggregator (`src/state.rs`) -/

/-- Every single non-deprecated HTML 5 tag, exactly the `HTML_TAGS` set of
`src/state.rs`. -/
def htmlTags : List String :=
  ["a", "abbr", "address", "area", "article", "aside", "audio",
   "b", "base", "bdi", "bdo", "blockquote", "body", "br", "button",
   "canvas", "caption", "cite", "code", "col", "colgroup",
   "data", "datalist", "dd", "del", "details", "dfn", "dialog", "div", "dl", "dt",
   "em", "embed", "fieldset", "figcaption", "figure", "footer", "form",
   "h1", "h2", "h3", "h4", "h5", "h6", "head", "header", "hgroup", "hr", "html",
   "i", "iframe", "img", "input", "ins",
   "kbd",
   "label", "legend", "li", "link",
   "main", "map", "mark", "menu", "meta", "meter",
   "nav", "noscript",
   "object", "ol", "optgroup", "option", "output",
   "p", "picture", "pre", "progress",
   "q",
   "rp", "rt", "ruby",
   "s", "samp", "script", "section", "select", "slot", "small", "source",
   "span", "strong", "style", "sub", "summary", "sup",
   "table", "tbody", "td", "template", "textarea", "tfoot",
   "th", "thead", "time", "title", "tr", "track",
   "u", "ul",
   "var", "video",
   "wbr"]

/-- A DOM element as seen through the fantoccini collaborator by
`State::accept_node`: `tagName` is the result of `tag_name()` (`none` models
the element having left the DOM, so the call errors), `rect` is the result of
`rectangle()` (`none` models that call failing; it is only issued for `div`
elements). -/
structure Element where
  tagName : Option String
  rect : Option (Int × Int × Int × Int)
deriving DecidableEq

/-- The shared `Output` of `src/state.rs`: the frequency table
`freq: Arc<DashMap<String, usize>>`, modelled as a total counter function
(absent keys are 0, matching `entry(tag).or_default()`). -/
structure Output where
  freq : String → Nat

/-- The per-worker `State` of `src/state.rs`. -/
structure State where
  output : Output
  window_width : Nat
  window_height : Nat

/-- One increment of the shared table: `*self.output.freq.entry(tag).or_default() += 1`. -/
def bump (f : String → Nat) (tag : String) : String → Nat :=
  fun t => if t = tag then f t + 1 else f t

/-- Shallow embedding of `State::accept_node` (src/state.rs:55-82).
A failed `tag_name()` is logged and skipped; an unrecognized tag is logged
and skipped; for a `div` the `rectangle()` call may fail, which aborts with
an error (the `?` on `v.rectangle().await`); otherwise the counter for the
tag is incremented. -/
def State.accept_node (s : State) (v : Element) : Except Unit State :=
  match v.tagName with
  | none => .ok s
  | some tag =>
    if htmlTags.contains tag then
      match (if tag = "div" then v.rect.map (fun _ => ()) else some ()) with
      | none => .error ()
      | some _ => .ok { s with output := ⟨bump s.output.freq tag⟩ }
    else .ok s

/-- The `try_fold(state, State::accept_node)` of `Crawler::crawl`
(src/crawler.rs:214-217). -/
def foldAccept (s : State) (es : List Element) : Except Unit State :=
  match es with
  | [] => .ok s
  | e :: es' =>
    match s.accept_node e with
    | .error u => .error u
    | .ok s' => foldAccept s' es'

/-- Number of elements in a sequence bearing tag `t`. -/
def tagCount (t : String) (es : List Element) : Nat :=
  es.countP (fun e => e.tagName == some t)

/-- An arbitrary interleaving of two sequences, preserving each sequence's
internal order: the order in which two workers' increments reach the shared
`DashMap`. -/
inductive Interleave : List Element → List Element → List Element → Prop
  | nil : Interleave [] [] []
  | left {x xs ys zs} : Interleave xs ys zs → Interleave (x :: xs) ys (x :: zs)
  | right {y xs ys zs} : Interleave xs ys zs → Interleave xs (y :: ys) (y :: zs)

/-- An arbitrary interleaving of the element sequences of any number of
workers. -/
inductive InterleaveN : List (List Element) → List Element → Prop
  | nil : InterleaveN [] []
  | cons {l ls rest z} : Interleave l rest z → InterleaveN ls rest → InterleaveN (l :: ls) z

theorem interleave_countP (p : Element → Bool) {xs ys zs : List Element}
    (h : Interleave xs ys zs) : zs.countP p = xs.countP p + ys.countP p := by
  induction h with
  | nil => rfl
  | left _ ih => simp [List.countP_cons, ih]; omega
  | right _ ih => simp [List.countP_cons, ih]; omega

theorem interleaveN_countP (p : Element → Bool) {ls : List (List Element)} {z : List Element}
    (h : InterleaveN ls z) : z.countP p = (ls.map (fun l => l.countP p)).sum := by
  induction h with
  | nil => rfl
  | cons hil _ ih => rw [interleave_countP p hil, ih]; simp

theorem accept_node_freq {s s' : State} {v : Element} {t : String}
    (ht : htmlTags.contains t = true)
    (h : s.accept_node v = .ok s') :
    s'.output.freq t = s.output.freq t + (if v.tagName == some t then 1 else 0) := by
  unfold State.accept_node at h
  split at h
  · rename_i hv
    injection h with h
    subst h
    simp [hv]
  · rename_i tag hv
    split at h
    · split at h
      · simp at h
      · injection h with h
        subst h
        by_cases he : t = tag
        · subst he
          simp [hv, bump]
        · have he' : ¬ tag = t := fun hq => he hq.symm
          simp [hv, bump, he, he', beq_iff_eq]
    · rename_i hc
      injection h with h
      subst h
      have he' : ¬ tag = t := fun hq => hc (hq ▸ ht)
      simp [hv, beq_iff_eq, he']

theorem foldAccept_freq {s s' : State} {es : List Element} {t : String}
    (ht : htmlTags.contains t = true)
    (h : foldAccept s es = .ok s') :
    s'.output.freq t = s.output.freq t + tagCount t es := by
  induction es generalizing s with
  | nil =>
    unfold foldAccept at h
    cases h
    simp [tagCount]
  | cons e es' ih =>
    unfold foldAccept at h
    cases ha : s.accept_node e with
    | error u => rw [ha] at h; cases h
    | ok s₁ =>
      rw [ha] at h
      have h1 := accept_node_freq ht ha
      have h2 := ih h
      rw [h2, h1]
      simp [tagCount, List.countP_cons]
      omega

/-- C1: for every family of per-worker element sequences and every
interleaving of their arrival at the shared aggregator, the final counter
for each recognized tag equals the total number of processed elements
bearing that tag — the sum over workers — independently of the
interleaving. -/
theorem aggregator_counts_exact
    (workers : List (List Element)) (es : List Element) (s s' : State) (t : String)
    (hI : InterleaveN workers es)
    (ht : htmlTags.contains t = true)
    (hf : foldAccept s es = .ok s') :
    s'.output.freq t = s.output.freq t + (workers.map (tagCount t)).sum := by
  have hc := interleaveN_countP (fun e => e.tagName == some t) hI
  have := foldAccept_freq ht hf
  rw [this]
  unfold tagCount
  rw [hc]

/-- Witness for C1: two workers, each observing one `span` element; the
left-then-right interleaving yields a final count of 2. -/
theorem aggregator_counts_exact_witness :
    InterleaveN [[Element.mk (some "span") none], [Element.mk (some "span") none]]
      [Element.mk (some "span") none, Element.mk (some "span") none] ∧
    htmlTags.contains "span" = true ∧
    foldAccept ⟨⟨fun _ => 0⟩, 1280, 720⟩
      [Element.mk (some "span") none, Element.mk (some "span") none]
      = .ok ⟨⟨bump (bump (fun _ => 0) "span") "span"⟩, 1280, 720⟩ ∧
    (⟨⟨bump (bump (fun _ => 0) "span") "span"⟩, 1280, 720⟩ : State).output.freq "span"
      = (⟨⟨fun _ => 0⟩, 1280, 720⟩ : State).output.freq "span"
        + ([[Element.mk (some "span") none], [Element.mk (some "span") none]].map
            (tagCount "span")).sum := by
  refine ⟨?_, ?_, ?_, ?_⟩
  · exact .cons (.left (.right .nil)) (.cons (.left .nil) .nil)
  · decide
  · rfl
  · exact aggregator_counts_exact
      [[Element.mk (some "span") none], [Element.mk (some "span") none]]
      [Element.mk (some "span") none, Element.mk (some "span") none]
      ⟨⟨fun _ => 0⟩, 1280, 720⟩ _ "span"
      (.cons (.left (.right .nil)) (.cons (.left .nil) .nil)) (by decide) rfl

/-! ## Source reader / Assigner (`src/assigner.rs`) -/

/-- One line as delivered by `Lines::next_line()`: either its decoded UTF-8
content (without the terminating newline) or a marker that the raw bytes were
not valid UTF-8, in which case `next_line` returns an `Err`. -/
inductive InLine
  | utf8 (s : String)
  | nonUtf8
deriving DecidableEq

/-- The characters of the fixed scheme prefix the run loop inserts. -/
def httpsPrefix : List Char := "https://".data

/-- The suffix of a character list strictly after the first `','`;
models `site.find(',')` followed by slicing past the delimiter.
`none` models `find` returning `None`. -/
def afterComma : List Char → Option (List Char)
  | [] => none
  | c :: rest => if c = ',' then some rest else afterComma rest

/-- Modelled behavior of `url::Url::parse` (the external `url` crate) on the
strings the run loop builds, which always begin with the inserted
`https://`: the authority runs to the first `/`, `?` or `#`; an optional
port follows the last `:` of the authority and must be purely numeric; the
host must be nonempty and free of spaces. On success the unnormalized input
string itself stands for the parsed URL (URL normalization is irrelevant to
the claims under study). Userinfo, IPv6 literals and percent-escapes are
outside the inputs considered. -/
def urlParse? (l : List Char) : Option (List Char) :=
  if l.take 8 = httpsPrefix then
    let rest := l.drop 8
    let authority := rest.takeWhile (fun c => !(c = '/' || c = '?' || c = '#'))
    let revA := authority.reverse
    let portRev := revA.takeWhile (fun c => !(c = ':'))
    let host := if portRev.length = authority.length then authority
                else (revA.drop (portRev.length + 1)).reverse
    let port := if portRev.length = authority.length then [] else portRev.reverse
    if !host.isEmpty && host.all (fun c => !(c = ' ')) && port.all (·.isDigit)
    then some l else none
  else none

/-- Outcome of `Assigner::run`: a clean `Ok(())` return, a returned `Err`
from the `?` on `next_line` (I/O or UTF-8 failure), a returned `Err` from
the `?` on `Url::parse`, or a panic from `.unwrap()`. -/
inductive RunResult
  | ok
  | ioError
  | urlError
  | panicked
deriving DecidableEq

/-- Decrement of the shutdown countdown (`none`: no signal ever arrives). -/
def sigDec : Option Nat → Option Nat
  | none => none
  | some k => some (k - 1)

/-- Shallow embedding of `Assigner::run` (src/assigner.rs:55-71).
`sig = some j` means the select's `rx.changed()` branch wins after `j`
further lines have been processed (the shutdown signal arrives then);
`sig = none` means no shutdown signal arrives during the run. Each
processed line is split at its first comma (`find(',').unwrap()` panics
when there is none), `https://` is inserted right after the comma, and the
slice from the insertion point on is parsed and pushed. Returns the pushed
jobs in push order together with how the loop ended. -/
def Assigner.run (sig : Option Nat) (lines : List InLine) : List (List Char) × RunResult :=
  if sig = some 0 then ([], .ok)
  else
    match lines with
    | [] => ([], .ok)
    | .nonUtf8 :: _ => ([], .ioError)
    | .utf8 s :: rest =>
      match afterComma s.data with
      | none => ([], .panicked)
      | some after =>
        match urlParse? (httpsPrefix ++ after) with
        | none => ([], .urlError)
        | some job =>
          let r := Assigner.run (sigDec sig) rest
          (job :: r.1, r.2)

/-- A record line the run loop accepts: valid UTF-8, has a comma, and the
`https://`-prefixed payload parses as a URL. -/
def lineOk : InLine → Bool
  | .utf8 s =>
    match afterComma s.data with
    | some after => (urlParse? (httpsPrefix ++ after)).isSome
    | none => false
  | .nonUtf8 => false

/-- The job the run loop pushes for a well-formed record line. -/
def jobOf : InLine → List Char
  | .utf8 s =>
    match afterComma s.data with
    | some after => httpsPrefix ++ after
    | none => []
  | .nonUtf8 => []

theorem urlParse?_eq_some {l x : List Char} (h : urlParse? l = some x) : x = l := by
  unfold urlParse? at h
  split at h
  · dsimp only at h
    split at h <;> split at h <;>
      first
      | (injection h with h; exact h.symm)
      | cases h
  · cases h

theorem run_none_wellformed {lines : List InLine}
    (hwf : ∀ l ∈ lines, lineOk l = true) :
    Assigner.run none lines = (lines.map jobOf, .ok) := by
  induction lines with
  | nil => rfl
  | cons l rest ih =>
    have hl : lineOk l = true := hwf l (List.mem_cons_self l rest)
    have hrest : ∀ l' ∈ rest, lineOk l' = true := fun l' h' => hwf l' (List.mem_cons_of_mem l h')
    cases l with
    | nonUtf8 => simp [lineOk] at hl
    | utf8 s =>
      cases hc : afterComma s.data with
      | none => simp [lineOk, hc] at hl
      | some after =>
        cases hu : urlParse? (httpsPrefix ++ after) with
        | none => simp [lineOk, hc, hu] at hl
        | some job =>
          have hjob : job = httpsPrefix ++ after := urlParse?_eq_some hu
          simp [Assigner.run, hc, hu, sigDec, ih hrest, jobOf, hjob]

/-- The non-blocking pop: models `try_pop` on the Job Queue, which removes
and returns the oldest element, or yields no job when the queue is empty.
Modelled from the spec: the `JobQueue` type lives in the crate root, which
is not among the source files; §4.2 fixes its contract (bounded FIFO,
`push` appends — blocking while full — and `try_pop` removes the front).
Capacity only delays pushes and never changes the delivered values, so it
is not part of the functional model. -/
def tryPop : List α → Option α × List α
  | [] => (none, [])
  | j :: rest => (some j, rest)

/-- A sequence of `try_pop` calls by the identified workers against the
queue: returns the deliveries (worker, job) in pop order and the remaining
queue. -/
def popRun : List Nat → List α → List (Nat × α) × List α
  | [], q => ([], q)
  | w :: ws, q =>
    match tryPop q with
    | (none, q') => popRun ws q'
    | (some j, q') =>
      let r := popRun ws q'
      ((w, j) :: r.1, r.2)

theorem popRun_delivered_append (ws : List Nat) (q : List α) :
    ((popRun ws q).1.map Prod.snd) ++ (popRun ws q).2 = q := by
  induction ws generalizing q with
  | nil => rfl
  | cons w ws ih =>
    cases q with
    | nil =>
      simp only [popRun, tryPop]
      exact ih []
    | cons j rest =>
      simp only [popRun, tryPop, List.map_cons, List.cons_append]
      rw [ih rest]

/-- C2: for a file of well-formed records the run loop pushes exactly the
records' jobs, in file order, and ends with `Ok`; and for any sequence of
worker pops against the pushed queue, deliveries plus leftover are exactly
the pushed jobs — so no pushed job is delivered to more than one worker
(per-job occurrence counts are conserved). -/
theorem assigner_pushes_file_order
    (lines : List InLine) (ws : List Nat)
    (hwf : ∀ l ∈ lines, lineOk l = true) :
    Assigner.run none lines = (lines.map jobOf, .ok) ∧
    ((popRun ws (lines.map jobOf)).1.map Prod.snd) ++ (popRun ws (lines.map jobOf)).2
      = lines.map jobOf ∧
    ∀ j : List Char,
      ((popRun ws (lines.map jobOf)).1.map Prod.snd).count j
        + ((popRun ws (lines.map jobOf)).2).count j
        = (lines.map jobOf).count j := by
  refine ⟨run_none_wellformed hwf, popRun_delivered_append ws _, fun j => ?_⟩
  have h := popRun_delivered_append ws (lines.map jobOf)
  calc ((popRun ws (lines.map jobOf)).1.map Prod.snd).count j
        + ((popRun ws (lines.map jobOf)).2).count j
      = (((popRun ws (lines.map jobOf)).1.map Prod.snd)
          ++ (popRun ws (lines.map jobOf)).2).count j := (List.count_append ..).symm
    _ = (lines.map jobOf).count j := by rw [h]

/-- Witness for C2: one record, two workers; the single job is delivered
once and the queue drains. -/
theorem assigner_pushes_file_order_witness :
    (∀ l ∈ [InLine.utf8 "0,example.com"], lineOk l = true) ∧
    Assigner.run none [InLine.utf8 "0,example.com"]
      = ([InLine.utf8 "0,example.com"].map jobOf, .ok) := by
  have hwf : ∀ l ∈ [InLine.utf8 "0,example.com"], lineOk l = true := by decide
  exact ⟨hwf, (assigner_pushes_file_order [InLine.utf8 "0,example.com"] [0, 1] hwf).1⟩

/-! ### Scheme prefixing (claim C7) and malformed records (claim C8) -/

/-- Continuation of a URL scheme after its first letter:
`*( ALPHA / DIGIT / "+" / "-" / "." )` followed by `":"`. -/
def schemeTail : List Char → Bool
  | [] => false
  | c :: rest =>
    if c = ':' then true
    else (c.isAlphanum || c = '+' || c = '-' || c = '.') && schemeTail rest

/-- Does a character list begin with a URL scheme (`ALPHA` then
`schemeTail`)? Used only to state the spec's conditional-prefix rule. -/
def hasScheme : List Char → Bool
  | [] => false
  | c :: rest => c.isAlpha && schemeTail rest

/-- The job URL the spec's words prescribe for a record line (§4.3):
"taking the substring after the first delimiter, prefixing it with a fixed
scheme if absent, and parsing as a URL". Stated from the spec, for
comparison against the source's behavior. -/
def specJobUrl (s : String) : Option (List Char) :=
  (afterComma s.data).map (fun after =>
    if hasScheme after then after else httpsPrefix ++ after)

/-- Counterexample to C7: for the record `0,https://example.com`, whose
payload already carries a scheme, the run loop still inserts `https://`
and pushes `https://https://example.com`, while conditional prefixing
would leave the payload untouched; the produced job differs from the one
the claim prescribes. -/
theorem run_prefix_unconditional_cex :
    (Assigner.run none [.utf8 "0,https://example.com"]).1
      = ["https://https://example.com".data] ∧
    specJobUrl "0,https://example.com" = some ("https://example.com".data) ∧
    "https://https://example.com".data ≠ "https://example.com".data := by
  refine ⟨by decide, by decide, by decide⟩

/-- C7 (amended): for every record line with a comma, the run loop builds
the job URL by taking the substring after the first comma and
unconditionally prefixing it with `https://` — whether or not the payload
already carries a scheme — and pushes the parse of that string. -/
theorem run_job_url_unconditional
    (s : String) (after : List Char) (rest : List InLine)
    (hc : afterComma s.data = some after)
    (hp : (urlParse? (httpsPrefix ++ after)).isSome = true) :
    (Assigner.run none (.utf8 s :: rest)).1.head? = some (httpsPrefix ++ after) := by
  obtain ⟨job, hu⟩ := Option.isSome_iff_exists.mp hp
  have hjob := urlParse?_eq_some hu
  simp [Assigner.run, hc, hu, hjob]

/-- Witness for C7 (amended) at the record `0,example.com`. -/
theorem run_job_url_unconditional_witness :
    afterComma ("0,example.com".data) = some ("example.com".data) ∧
    (urlParse? (httpsPrefix ++ "example.com".data)).isSome = true ∧
    (Assigner.run none [.utf8 "0,example.com"]).1.head?
      = some (httpsPrefix ++ "example.com".data) :=
  ⟨by decide, by decide,
    run_job_url_unconditional "0,example.com" ("example.com".data) []
      (by decide) (by decide)⟩

theorem run_none_append {good : List InLine} (tail : List InLine)
    (hwf : ∀ l ∈ good, lineOk l = true) :
    Assigner.run none (good ++ tail)
      = (good.map jobOf ++ (Assigner.run none tail).1, (Assigner.run none tail).2) := by
  induction good with
  | nil => simp
  | cons l rest ih =>
    have hl : lineOk l = true := hwf l (List.mem_cons_self l rest)
    have hrest : ∀ l' ∈ rest, lineOk l' = true := fun l' h' => hwf l' (List.mem_cons_of_mem l h')
    cases l with
    | nonUtf8 => simp [lineOk] at hl
    | utf8 s =>
      cases hc : afterComma s.data with
      | none => simp [lineOk, hc] at hl
      | some after =>
        cases hu : urlParse? (httpsPrefix ++ after) with
        | none => simp [lineOk, hc, hu] at hl
        | some job =>
          have hjob : job = httpsPrefix ++ after := urlParse?_eq_some hu
          simp [Assigner.run, hc, hu, sigDec, ih hrest, jobOf, hjob]

/-- Counterexample to C8: a record lacking the comma delimiter makes the
run loop panic — `site.find(',').unwrap()` unwraps `None` — rather than
fail with a returned error, so the loop's failure at such a record is not
"an error" in the sense of the claim (an `Err` return). -/
theorem run_missing_delimiter_panics_cex :
    Assigner.run none [.utf8 "0,example.com", .utf8 "nodelimiter"]
      = (["https://example.com".data], .panicked) ∧
    RunResult.panicked ≠ RunResult.ioError ∧
    RunResult.panicked ≠ RunResult.urlError ∧
    RunResult.panicked ≠ RunResult.ok := by
  refine ⟨by decide, by decide, by decide, by decide⟩

/-- C8 (amended): processing stops at the first malformed record, with the
well-formed records before it all pushed in order, nothing skipped and
nothing retried; the run loop ends with a returned error for non-UTF8
bytes or an unparsable URL, but with a panic for a record lacking the
comma delimiter. -/
theorem run_malformed_fails_immediately
    (good : List InLine) (rest : List InLine)
    (hwf : ∀ l ∈ good, lineOk l = true) :
    (Assigner.run none (good ++ .nonUtf8 :: rest)
        = (good.map jobOf, .ioError)) ∧
    (∀ s : String, afterComma s.data = none →
      Assigner.run none (good ++ .utf8 s :: rest)
        = (good.map jobOf, .panicked)) ∧
    (∀ (s : String) (after : List Char), afterComma s.data = some after →
      urlParse? (httpsPrefix ++ after) = none →
      Assigner.run none (good ++ .utf8 s :: rest)
        = (good.map jobOf, .urlError)) := by
  refine ⟨?_, ?_, ?_⟩
  · rw [run_none_append _ hwf]
    simp [Assigner.run]
  · intro s hc
    rw [run_none_append _ hwf]
    simp [Assigner.run, hc]
  · intro s after hc hu
    rw [run_none_append _ hwf]
    simp [Assigner.run, hc, hu]

/-- Witness for C8 (amended): one good record followed by a record with no
delimiter; the good job is pushed, then the loop panics. -/
theorem run_malformed_fails_immediately_witness :
    Assigner.run none ([InLine.utf8 "0,example.com"] ++ .utf8 "nodelimiter" :: [])
      = ([InLine.utf8 "0,example.com"].map jobOf, .panicked) :=
  (run_malformed_fails_immediately [.utf8 "0,example.com"] [] (by decide)).2.1
    "nodelimiter" (by decide)

/-- After the first shutdown signal wins the select — here after `j` lines —
the run loop stops pushing and returns `Ok`, having pushed exactly the jobs
of the lines read before the signal. -/
theorem run_shutdown_stops (lines : List InLine) :
    ∀ j : Nat, (∀ l ∈ lines, lineOk l = true) →
      Assigner.run (some j) lines = ((lines.take j).map jobOf, .ok) := by
  induction lines with
  | nil => intro j _; cases j <;> simp [Assigner.run]
  | cons l rest ih =>
    intro j hwf
    have hl : lineOk l = true := hwf l (List.mem_cons_self l rest)
    have hrest : ∀ l' ∈ rest, lineOk l' = true := fun l' h' => hwf l' (List.mem_cons_of_mem l h')
    cases j with
    | zero => cases l <;> simp [Assigner.run]
    | succ j' =>
      cases l with
      | nonUtf8 => simp [lineOk] at hl
      | utf8 s =>
        cases hc : afterComma s.data with
        | none => simp [lineOk, hc] at hl
        | some after =>
          cases hu : urlParse? (httpsPrefix ++ after) with
          | none => simp [lineOk, hc, hu] at hl
          | some job =>
            have hjob : job = httpsPrefix ++ after := urlParse?_eq_some hu
            simp [Assigner.run, hc, hu, sigDec, ih j' hrest, jobOf, hjob]

/-! ## Crawler worker (`src/crawler.rs`) -/

/-- Worker states reported on the channel (src/crawler.rs:24-31). -/
inductive CrawlerState
  | initializing
  | inProgress (url : String)
  | complete
  | shuttingDown
  | terminated
deriving DecidableEq

/-- A (port, state) report sent on the reporting channel (src/crawler.rs:19-23). -/
structure CrawlerReport where
  port : Nat
  state : CrawlerState
deriving DecidableEq

/-- Observable actions of a worker, in order of occurrence: a report sent on
the channel, the graceful session close (`self.client.close()`), or killing
the driver subprocess (`self.driver.start_kill()`). -/
inductive WorkerEvent
  | report (r : CrawlerReport)
  | closeSession
  | killDriver
deriving DecidableEq

/-- How one `Crawler::crawl` invocation fares, covering every fallible step
of src/crawler.rs:186-221 after the InProgress report. -/
inductive CrawlOutcome
  | ok
  | navError
  | noBody
  | emptyBody
  | foldError
deriving DecidableEq

/-- The `Result` value `Crawler::crawl` returns for each outcome; the error
strings are the `wrap_err` contexts of src/crawler.rs:199-212 (`foldError`
stands for an error propagated out of the `try_fold`). -/
def crawlResult : CrawlOutcome → Except String Unit
  | .ok => .ok ()
  | .navError => .error "Failed to navigate to site"
  | .noBody => .error "No body element found - how?"
  | .emptyBody => .error "Looks like body element is empty?"
  | .foldError => .error "element rectangle lookup failed"

/-- Shallow embedding of `Crawler::crawl` (src/crawler.rs:186-221): the
InProgress report is sent first, then the navigation/DOM work either
succeeds or returns the outcome's error. -/
def Crawler.crawl (port : Nat) (url : String) (o : CrawlOutcome) :
    List WorkerEvent × Except String Unit :=
  ([.report ⟨port, .inProgress url⟩], crawlResult o)

/-- Shallow embedding of `Crawler::crawl_loop` (src/crawler.rs:167-184):
jobs are popped until `try_pop` yields none; a failed crawl is only logged
(`error!(%e, "Error while crawling")`) and the job abandoned; a Complete
report is sent after every job; the loop then returns `Ok(())`. Its only
`Err` source in the source is a reporting-channel send failure, which the
spec rules out (the observer outlives the pool), so sends are modelled as
succeeding. -/
def Crawler.crawl_loop (port : Nat) (jobs : List (String × CrawlOutcome)) :
    List WorkerEvent × Except String Unit :=
  match jobs with
  | [] => ([], .ok ())
  | (url, o) :: rest =>
    let c := Crawler.crawl port url o
    let r := Crawler.crawl_loop port rest
    (c.1 ++ [.report ⟨port, .complete⟩] ++ r.1, r.2)

/-- How the select loop of `Crawler::run` ends: either `crawl_loop`
returned `Ok` (the queue was exhausted) or the first shutdown signal won
the select — possibly cancelling an in-flight crawl whose InProgress
report had already been sent. -/
inductive RunEnd
  | exhausted
  | signalled (inflight : Option String)
deriving DecidableEq

/-- A schedule of one post-initialization worker run: the jobs fully
handled before the loop ended, how the loop ended, and whether a second
shutdown signal wins the race against `client.close()` while the worker is
ShuttingDown. -/
structure RunScenario where
  jobs : List (String × CrawlOutcome)
  ending : RunEnd
  forced : Bool
deriving DecidableEq

/-- Shallow embedding of `Crawler::run` (src/crawler.rs:128-165): the
select loop runs `crawl_loop` until it finishes or the first shutdown
signal breaks out (dropping any in-flight crawl after its InProgress
report); a ShuttingDown report follows; then `client.close()` races a
second signal — if the signal wins the close is abandoned, otherwise the
session closes; finally the driver is killed and a Terminated report is
sent. -/
def Crawler.run (port : Nat) (sc : RunScenario) : List WorkerEvent :=
  (match sc.ending with
   | .exhausted => (Crawler.crawl_loop port sc.jobs).1
   | .signalled inflight =>
     (Crawler.crawl_loop port sc.jobs).1
       ++ (match inflight with
           | none => []
           | some u => [.report ⟨port, .inProgress u⟩]))
  ++ [.report ⟨port, .shuttingDown⟩]
  ++ (if sc.forced then [] else [.closeSession])
  ++ [.killDriver, .report ⟨port, .terminated⟩]

/-- A worker lifetime as classified by the claims: initialization fails, or
the worker runs to one of the shutdown endings of `RunScenario`. -/
inductive Lifecycle
  | initFailed
  | runs (sc : RunScenario)

/-- Shallow embedding of the full worker lifetime, `Crawler::new` followed
by `Crawler::run` (src/crawler.rs:55-165): `new` reports Initializing
first; if `init_session` fails it reports Terminated and returns the error
to the supervisor; otherwise `run` executes. -/
def Crawler.lifetime (port : Nat) : Lifecycle → List WorkerEvent
  | .initFailed => [.report ⟨port, .initializing⟩, .report ⟨port, .terminated⟩]
  | .runs sc => .report ⟨port, .initializing⟩ :: Crawler.run port sc

/-- Number of Terminated reports for `port` in an event list. -/
def countTerminated (port : Nat) (evs : List WorkerEvent) : Nat :=
  evs.countP (fun e => decide (e = .report ⟨port, .terminated⟩))

/-- Number of Complete reports for `port` in an event list. -/
def countComplete (port : Nat) (evs : List WorkerEvent) : Nat :=
  evs.countP (fun e => decide (e = .report ⟨port, .complete⟩))

/-- Is the event a job-progress report (InProgress or Complete)? -/
def isJobReport (port : Nat) (e : WorkerEvent) : Prop :=
  (∃ u, e = .report ⟨port, .inProgress u⟩) ∨ e = .report ⟨port, .complete⟩

theorem crawl_loop_ok (port : Nat) (jobs : List (String × CrawlOutcome)) :
    (Crawler.crawl_loop port jobs).2 = .ok () := by
  induction jobs with
  | nil => rfl
  | cons j rest ih =>
    obtain ⟨url, o⟩ := j
    simpa [Crawler.crawl_loop] using ih

theorem crawl_loop_countTerminated (port : Nat) (jobs : List (String × CrawlOutcome)) :
    countTerminated port (Crawler.crawl_loop port jobs).1 = 0 := by
  induction jobs with
  | nil => rfl
  | cons j rest ih =>
    obtain ⟨url, o⟩ := j
    simpa [Crawler.crawl_loop, Crawler.crawl, countTerminated,
      List.countP_cons, List.countP_append] using ih

theorem crawl_loop_countComplete (port : Nat) (jobs : List (String × CrawlOutcome)) :
    countComplete port (Crawler.crawl_loop port jobs).1 = jobs.length := by
  induction jobs with
  | nil => rfl
  | cons j rest ih =>
    obtain ⟨url, o⟩ := j
    simp [Crawler.crawl_loop, Crawler.crawl, countComplete,
      List.countP_cons, List.countP_append] at ih ⊢
    omega

theorem crawl_loop_jobReports (port : Nat) (jobs : List (String × CrawlOutcome)) :
    ∀ e ∈ (Crawler.crawl_loop port jobs).1, isJobReport port e := by
  induction jobs with
  | nil => intro e he; cases he
  | cons j rest ih =>
    obtain ⟨url, o⟩ := j
    intro e he
    simp [Crawler.crawl_loop, Crawler.crawl] at he
    rcases he with h | h | h
    · exact Or.inl ⟨url, h⟩
    · exact Or.inr h
    · exact ih e h

/-- C3: every worker lifetime that ends by graceful shutdown, forced
shutdown, or initialization failure sends exactly one Terminated report —
never zero, never more than one. -/
theorem terminated_exactly_once (port : Nat) (lc : Lifecycle) :
    countTerminated port (Crawler.lifetime port lc) = 1 := by
  cases lc with
  | initFailed =>
    simp [Crawler.lifetime, countTerminated, List.countP_cons]
  | runs sc =>
    obtain ⟨jobs, ending, forced⟩ := sc
    have h0 := crawl_loop_countTerminated port jobs
    simp only [countTerminated] at h0
    cases ending with
    | exhausted =>
      cases forced <;>
        simp [Crawler.lifetime, Crawler.run, countTerminated,
          List.countP_cons, List.countP_append, h0]
    | signalled inflight =>
      cases inflight with
      | none =>
        cases forced <;>
          simp [Crawler.lifetime, Crawler.run, countTerminated,
            List.countP_cons, List.countP_append, h0]
      | some u =>
        cases forced <;>
          simp [Crawler.lifetime, Crawler.run, countTerminated,
            List.countP_cons, List.countP_append, h0]

/-- C4: (i) after the first shutdown signal (after `j` lines) the
Assigner's run loop pushes only the already-read records' jobs and returns
`Ok`; (ii) a worker whose select loop the first signal broke after `k`
fully handled jobs emits only job-progress reports — the `k` Complete
reports plus at most the already-started in-flight job's InProgress —
before its ShuttingDown report; (iii) if a second signal arrives while the
session close is pending, the close is abandoned (no close event at all)
and the driver is killed immediately after the ShuttingDown report,
otherwise the close precedes the kill. -/
theorem shutdown_two_stage
    (lines : List InLine) (j : Nat) (hwf : ∀ l ∈ lines, lineOk l = true)
    (port : Nat) (jobs : List (String × CrawlOutcome))
    (inflight : Option String) (forced : Bool) :
    (Assigner.run (some j) lines = ((lines.take j).map jobOf, .ok)) ∧
    (∃ A, Crawler.run port ⟨jobs, .signalled inflight, forced⟩
        = A ++ [.report ⟨port, .shuttingDown⟩]
            ++ (if forced then [] else [.closeSession])
            ++ [.killDriver, .report ⟨port, .terminated⟩] ∧
      (∀ e ∈ A, isJobReport port e) ∧
      countComplete port A = jobs.length) := by
  refine ⟨run_shutdown_stops lines j hwf, ?_⟩
  refine ⟨(Crawler.crawl_loop port jobs).1
    ++ (match inflight with
        | none => []
        | some u => [.report ⟨port, .inProgress u⟩]), ?_, ?_, ?_⟩
  · simp [Crawler.run]
  · intro e he
    rw [List.mem_append] at he
    rcases he with h | h
    · exact crawl_loop_jobReports port jobs e h
    · cases inflight with
      | none => cases h
      | some u =>
        simp at h
        exact Or.inl ⟨u, h⟩
  · have h1 := crawl_loop_countComplete port jobs
    cases inflight with
    | none => simpa [countComplete, List.countP_append] using h1
    | some u =>
      simp [countComplete, List.countP_append, List.countP_cons] at h1 ⊢
      omega

/-- Witness for C4: two records read before the signal, a worker with one
completed job and an in-flight job cancelled by the signal, second signal
forcing the kill. -/
theorem shutdown_two_stage_witness :
    (Assigner.run (some 1) [.utf8 "0,example.com", .utf8 "1,example.org"]
      = (([InLine.utf8 "0,example.com", .utf8 "1,example.org"].take 1).map jobOf, .ok)) ∧
    (∃ A, Crawler.run 4444 ⟨[("example.com", .ok)], .signalled (some "example.org"), true⟩
        = A ++ [.report ⟨4444, .shuttingDown⟩]
            ++ (if true then [] else [.closeSession])
            ++ [.killDriver, .report ⟨4444, .terminated⟩] ∧
      (∀ e ∈ A, isJobReport 4444 e) ∧
      countComplete 4444 A = [("example.com", CrawlOutcome.ok)].length) :=
  shutdown_two_stage [.utf8 "0,example.com", .utf8 "1,example.org"] 1 (by decide)
    4444 [("example.com", .ok)] (some "example.org") true

/-- Counterexample to C5: a page whose body element is missing makes
`Crawler::crawl` return the wrapped error, but `crawl_loop` merely logs it,
sends a Complete report, and continues with the next job: the loop returns
`Ok(())` having processed the subsequent job, so the worker does not
terminate and no error reaches its caller. -/
theorem missing_body_not_fatal_cex :
    crawlResult .noBody = .error "No body element found - how?" ∧
    (Crawler.crawl_loop 4444 [("example.com", .noBody), ("example.org", .ok)]).2
      = .ok () ∧
    (Crawler.crawl_loop 4444 [("example.com", .noBody), ("example.org", .ok)]).1
      = [.report ⟨4444, .inProgress "example.com"⟩, .report ⟨4444, .complete⟩,
         .report ⟨4444, .inProgress "example.org"⟩, .report ⟨4444, .complete⟩] := by
  refine ⟨rfl, rfl, rfl⟩

/-- C5 (amended): a missing body element — like every other per-job crawl
failure — is logged and the job abandoned; a Complete report is still sent,
the worker moves on to the next job, the crawl loop returns `Ok` and no
error is surfaced to the caller (hence the supervisor sees no failure and
the worker is not replaced). -/
theorem crawl_errors_abandoned (port : Nat) (jobs : List (String × CrawlOutcome)) :
    (Crawler.crawl_loop port jobs).2 = .ok () ∧
    countComplete port (Crawler.crawl_loop port jobs).1 = jobs.length := by
  exact ⟨crawl_loop_ok port jobs, crawl_loop_countComplete port jobs⟩

/-! ## Prototype pool supervision (`src/main.rs`) -/

/-- Result of joining one spawned worker task (src/main.rs:79-83, 89-90):
`initPanicked` models `Instance::new(..).unwrap()` panicking inside the
task when initialization fails, which `join_next` surfaces as a
`JoinError`; `finished ok` models the task returning the result of
`instance.run(rx)`. -/
inductive TaskOutcome
  | initPanicked
  | finished (ok : Bool)
deriving DecidableEq

/-- The task body spawned per port (src/main.rs:79-82): when
`Instance::new` fails, the `unwrap` panics before `instance.run` is ever
reached, so the task pops zero jobs; otherwise the instance runs and
processes its `jobsIfRun` jobs. Returns the joined outcome and the number
of jobs the task processed. -/
def instanceTask (initOk : Bool) (jobsIfRun : Nat) : TaskOutcome × Nat :=
  if initOk then (.finished true, jobsIfRun) else (.initPanicked, 0)

/-- The worker ports the supervisor loop `for port in 4444..=4446` spawns
(src/main.rs:74-83). Every spawn happens before the join loop and `main`
contains no further worker spawn, so this list is the complete set of
workers ever started, whatever the tasks' outcomes. -/
def mainSpawnedPorts : List Nat := List.range' 4444 3

/-- Shallow embedding of the join loop of `main` (src/main.rs:87-98):
`join_next` yields the spawned tasks' outcomes in completion order, and
`res??` first propagates a `JoinError` (a panicked task) and then the
task's own `Err`, aborting `main` with that error; once no task remains
the `else` branch breaks and `main` returns `Ok`. -/
def mainJoinLoop : List TaskOutcome → Except Unit Unit
  | [] => .ok ()
  | .initPanicked :: _ => .error ()
  | .finished false :: _ => .error ()
  | .finished true :: rest => mainJoinLoop rest

/-- C6 (the code at the failing input): a worker whose initialization
fails panics before running and so processes zero jobs; joining it makes
`res??` abort `main` with the error, and the worker ports ever spawned
are still exactly the initial `4444..=4446` — no replacement worker is
spawned at any port, contrary to the claimed respawn at the next
sequential port. -/
theorem supervisor_aborts_on_init_failure :
    (∀ n : Nat, (instanceTask false n).2 = 0) ∧
    (∀ post : List TaskOutcome, mainJoinLoop (.initPanicked :: post) = .error ()) ∧
    mainSpawnedPorts = [4444, 4445, 4446] := by
  refine ⟨fun n => rfl, fun post => rfl, rfl⟩

/-! ## Tail inspection: `read_largest_index` (src/assigner.rs:12-34) -/

/-- Total length (in bytes) of a UTF-8 sequence led by `b`; 0 marks an
invalid leading byte (RFC 3629: C0, C1 and F5-FF never occur, and the
two-byte range starts at C2). -/
def seqLen (b : Nat) : Nat :=
  if 0xC2 ≤ b && b ≤ 0xDF then 2
  else if 0xE0 ≤ b && b ≤ 0xEF then 3
  else if 0xF0 ≤ b && b ≤ 0xF4 then 4
  else 0

/-- Lower bound for the first continuation byte after `b` (E0 and F0
exclude overlong encodings). -/
def firstContLo (b : Nat) : Nat :=
  if b = 0xE0 then 0xA0 else if b = 0xF0 then 0x90 else 0x80

/-- Upper bound for the first continuation byte after `b` (ED excludes
surrogates, F4 caps at U+10FFFF). -/
def firstContHi (b : Nat) : Nat :=
  if b = 0xED then 0x9F else if b = 0xF4 then 0x8F else 0xBF

/-- UTF-8 validation scanner: `k` continuation bytes are still expected,
the next of which must lie in `lo..hi`; with `k = 0` the next byte starts
a new sequence. -/
def utf8Scan : Nat → Nat → Nat → List Nat → Bool
  | 0, _, _, [] => true
  | 0, _, _, b :: rest =>
    if b ≤ 0x7F then utf8Scan 0 0 0 rest
    else if seqLen b = 0 then false
    else utf8Scan (seqLen b - 1) (firstContLo b) (firstContHi b) rest
  | _ + 1, _, _, [] => false
  | k + 1, lo, hi, c :: rest =>
    if lo ≤ c && c ≤ hi then utf8Scan k 0x80 0xBF rest else false

/-- Byte-level UTF-8 validity (RFC 3629), the check behind
`std::str::from_utf8`. -/
def validUtf8 (l : List Nat) : Bool := utf8Scan 0 0 0 l

theorem utf8Scan_ascii {l : List Nat} (h : ∀ b ∈ l, b ≤ 0x7F) :
    utf8Scan 0 0 0 l = true := by
  induction l with
  | nil => rfl
  | cons b rest ih =>
    have hb : b ≤ 0x7F := h b (List.mem_cons_self b rest)
    have hr := ih (fun x hx => h x (List.mem_cons_of_mem b hx))
    simp [utf8Scan, hb, hr]

theorem validUtf8_ascii {l : List Nat} (h : ∀ b ∈ l, b ≤ 0x7F) : validUtf8 l = true :=
  utf8Scan_ascii h

/-- The index, counted from the front, of the last byte satisfying `p`:
models `Iterator::rposition` over the read buffer, whose returned index —
for the second call, made on the iterator already truncated to the bytes
before the first hit — is still the absolute index, since the remaining
iterator starts at the front of the buffer. -/
def rpos (p : Nat → Bool) : List Nat → Option Nat
  | [] => none
  | a :: l =>
    match rpos p l with
    | some i => some (i + 1)
    | none => if p a then some 0 else none

theorem rpos_eq_none {p : Nat → Bool} {l : List Nat}
    (h : ∀ y ∈ l, p y = false) : rpos p l = none := by
  induction l with
  | nil => rfl
  | cons a l ih =>
    rw [rpos, ih (fun y hy => h y (List.mem_cons_of_mem a hy)),
      if_neg (by simp [h a (List.mem_cons_self a l)])]

theorem rpos_append_last {p : Nat → Bool} (a : List Nat) {x : Nat} {b : List Nat}
    (hx : p x = true) (hb : ∀ y ∈ b, p y = false) :
    rpos p (a ++ x :: b) = some a.length := by
  induction a with
  | nil =>
    rw [List.nil_append, rpos, rpos_eq_none hb, if_pos hx]
    rfl
  | cons a0 a' ih =>
    rw [List.cons_append, rpos, ih]
    rfl

/-- Splitting a byte list at its first comma byte: for valid UTF-8 this
coincides with `split_once(',')` on the decoded string, since `,` is ASCII
and every UTF-8 continuation byte is ≥ 0x80. -/
def splitAtComma (l : List Nat) : Option (List Nat × List Nat) :=
  match l with
  | [] => none
  | b :: rest =>
    if b = 44 then some ([], rest)
    else
      match splitAtComma rest with
      | some (x, y) => some (b :: x, y)
      | none => none

/-- A decimal digit byte. -/
def isDigitByte (b : Nat) : Bool := 48 ≤ b && b ≤ 57

/-- Model of `usize::from_str_radix(s, 10)`: an optional leading `+`, then
a nonempty run of decimal digits; a value past `2^64 - 1` overflows `usize`
and is an error. -/
def parseUsize (l : List Nat) : Option Nat :=
  let ds := match l with
    | 43 :: rest => rest
    | _ => l
  if ds.isEmpty then none
  else if ds.all isDigitByte then
    let v := ds.foldl (fun acc b => acc * 10 + (b - 48)) 0
    if v < 2 ^ 64 then some v else none
  else none

/-- Outcome of `read_largest_index`: success carries the parsed index and
the reader position afterwards (`0`: rewound to the start of the file);
`err` is a returned `Err`; `panicked` is an `unwrap` of `None`. -/
inductive RLIRes
  | ok (idx : Nat) (pos : Nat)
  | err
  | panicked
deriving DecidableEq

/-- The bytes the tail inspection reads: `seek(SeekFrom::End(-128))` fails
for a file shorter than 128 bytes, upon which the reader rewinds and
`read_to_end` yields the whole file; otherwise the final 128 bytes. -/
def window (file : List Nat) : List Nat :=
  if 128 ≤ file.length then file.drop (file.length - 128) else file

/-- Shallow embedding of `read_largest_index` (src/assigner.rs:12-34): in
the tail window, find the last newline (`rposition`, panicking via
`unwrap` when there is none), then the newline before it (again panicking
on `None`), decode the bytes between them as UTF-8, split at the first
comma and parse the index field as a `usize`; on success the reader is
rewound, leaving it at position 0. -/
def read_largest_index (file : List Nat) : RLIRes :=
  let v := window file
  match rpos (fun x => x == 10) v with
  | none => .panicked
  | some first_lb =>
    match rpos (fun x => x == 10) (v.take first_lb) with
    | none => .panicked
    | some second_lb =>
      let s := (v.take first_lb).drop (second_lb + 1)
      if validUtf8 s then
        match splitAtComma s with
        | none => .err
        | some (idx, _) =>
          match parseUsize idx with
          | none => .err
          | some k => .ok k 0
      else .err

theorem rli_of_window {file pre' rec ds payload : List Nat} {K : Nat}
    (hw : window file = pre' ++ 10 :: (rec ++ [10]))
    (h10 : ∀ b ∈ rec, (b == 10) = false)
    (hutf : validUtf8 rec = true)
    (hsplit : splitAtComma rec = some (ds, payload))
    (hparse : parseUsize ds = some K) :
    read_largest_index file = .ok K 0 := by
  have hassoc : pre' ++ 10 :: (rec ++ [10])
      = (pre' ++ 10 :: rec) ++ 10 :: ([] : List Nat) := by simp
  have h1 : rpos (fun x => x == 10) (window file) = some (pre' ++ 10 :: rec).length := by
    rw [hw, hassoc]
    exact rpos_append_last (pre' ++ 10 :: rec) (by rfl) (fun y hy => absurd hy (by simp))
  have h2 : (window file).take (pre' ++ 10 :: rec).length = pre' ++ 10 :: rec := by
    rw [hw, hassoc]
    exact List.take_left (pre' ++ 10 :: rec) (10 :: [])
  have h3 : rpos (fun x => x == 10) (pre' ++ 10 :: rec) = some pre'.length :=
    rpos_append_last pre' (by rfl) h10
  have h4 : (pre' ++ 10 :: rec).drop (pre'.length + 1) = rec := by
    rw [show pre' ++ 10 :: rec = (pre' ++ [10]) ++ rec by simp]
    exact List.drop_left' (by simp)
  unfold read_largest_index
  dsimp only
  rw [h1]
  dsimp only
  rw [h2, h3]
  dsimp only
  rw [h4, if_pos hutf, hsplit]
  dsimp only
  rw [hparse]

/-- Counterexample to C9: the well-formed single-record file
`0,example.com\n` — its final (and only) record has index 0 — makes
`read_largest_index` panic instead of returning 0: the second
`rposition(..).unwrap()` unwraps `None` because the window contains only
one newline. -/
theorem read_largest_index_single_record_cex :
    read_largest_index ("0,example.com\n".data.map Char.toNat) = .panicked ∧
    RLIRes.panicked ≠ .ok 0 0 := by
  refine ⟨by decide, by decide⟩

/-- C9 (amended): for every input file that ends with a newline, whose
final record contains no newline, is valid UTF-8, carries a comma
delimiter, and has an index field parsing as `K` — and whose last two
newlines fall inside the inspected window (the final 128 bytes, or the
whole file when shorter) — `read_largest_index` returns `K` with the
reader rewound to the beginning of the file. -/
theorem read_largest_index_wellformed
    (pre rec ds payload : List Nat) (K : Nat)
    (h10 : ∀ b ∈ rec, (b == 10) = false)
    (hutf : validUtf8 rec = true)
    (hsplit : splitAtComma rec = some (ds, payload))
    (hparse : parseUsize ds = some K)
    (hwin : rec.length + 2 ≤ 128 ∨ pre.length + rec.length + 2 < 128) :
    read_largest_index (pre ++ 10 :: (rec ++ [10])) = .ok K 0 := by
  have hlen : (pre ++ 10 :: (rec ++ [10])).length = pre.length + rec.length + 2 := by
    simp only [List.length_append, List.length_cons, List.length_nil]
    omega
  by_cases hbig : 128 ≤ (pre ++ 10 :: (rec ++ [10])).length
  · have hrec : rec.length + 2 ≤ 128 := by
      rcases hwin with h | h
      · exact h
      · omega
    have hk : (pre ++ 10 :: (rec ++ [10])).length - 128 ≤ pre.length := by omega
    have hw : window (pre ++ 10 :: (rec ++ [10]))
        = pre.drop ((pre ++ 10 :: (rec ++ [10])).length - 128) ++ 10 :: (rec ++ [10]) := by
      unfold window
      rw [if_pos hbig]
      exact List.drop_append_of_le_length hk
    exact rli_of_window hw h10 hutf hsplit hparse
  · have hw : window (pre ++ 10 :: (rec ++ [10])) = pre ++ 10 :: (rec ++ [10]) := by
      unfold window
      rw [if_neg hbig]
    exact rli_of_window hw h10 hutf hsplit hparse

/-- Witness for C9 (amended): the two-record file `0,a\n1,b\n` (shorter
than the window) yields index 1; and a file padded past 128 bytes whose
final record is `7,b` yields index 7. -/
theorem read_largest_index_wellformed_witness :
    ((∀ b ∈ "1,b".data.map Char.toNat, (b == 10) = false) ∧
      validUtf8 ("1,b".data.map Char.toNat) = true ∧
      splitAtComma ("1,b".data.map Char.toNat)
        = some ([49], [98]) ∧
      parseUsize [49] = some 1 ∧
      read_largest_index ("0,a".data.map Char.toNat ++ 10 :: ("1,b".data.map Char.toNat ++ [10]))
        = .ok 1 0) ∧
    read_largest_index (List.replicate 150 97 ++ 10 :: ("7,b".data.map Char.toNat ++ [10]))
      = .ok 7 0 := by
  refine ⟨⟨by decide, by decide, by decide, by decide, ?_⟩, ?_⟩
  · exact read_largest_index_wellformed ("0,a".data.map Char.toNat)
      ("1,b".data.map Char.toNat) [49] [98] 1
      (by decide) (by decide) (by decide) (by decide) (by left; decide)
  · exact read_largest_index_wellformed (List.replicate 150 97)
      ("7,b".data.map Char.toNat) [55] [98] 7
      (by decide) (by decide) (by decide) (by decide) (by left; decide)

/-! ## Bar chart widget (`src/tui/bar_chart.rs`) -/

/-- The drawing rectangle (ratatui `Rect`); `x`/`y` are `left()`/`top()`. -/
structure Rect where
  x : Nat
  y : Nat
  width : Nat
  height : Nat
deriving DecidableEq

/-- The divisor of the bar-height scaling expression
`*value * u64::from(chart_area.height - 1) * 8 / max.max(1)`
(src/tui/bar_chart.rs:131-144): the reference maximum — `self.max` or,
when absent, the data's maximum (`unwrap_or_default`, i.e. 0 for empty
data) — clamped to at least 1 by `.max(1)`. -/
def scalingDivisor (maxSetting : Option Nat) (data : List (String × Nat)) : Nat :=
  (match maxSetting with
   | some m => m
   | none => (data.map Prod.snd).foldr Nat.max 0).max 1

/-- The per-bar row loop `for j in (0..chart_area.height - 1).rev()`
(src/tui/bar_chart.rs:146-173): each row gets a symbol level — `min value
8` picks among empty, one-eighth, …, full — and the remaining value
saturates downward by 8 (`if value > 8 { value -= 8 } else { value = 0 }`,
which is truncated subtraction). Rows are produced top row first, as in
the source's reversed range. -/
def barRows : Nat → Nat → List (Nat × Nat)
  | 0, _ => []
  | r + 1, value => (r, min value 8) :: barRows r (value - 8)

/-- Shallow embedding of the bar-cell writes of `BarChart::render`
(src/tui/bar_chart.rs:109-174), with the already-computed chart area as
input (`Block` handling is the external ratatui widget). `none` models a
panic: with `bar_width + bar_gap = 0` the `u16` division computing
`max_index` divides by zero. Otherwise the result lists every bar cell
written, as `((x, y), symbol level)`; the early return for
`chart_area.height < 2` writes nothing. Label and value-string writes
(src/tui/bar_chart.rs:176-199) touch no bar cells and are not modelled. -/
def BarChart.render (data : List (String × Nat)) (area : Rect)
    (barWidth barGap : Nat) (maxSetting : Option Nat) :
    Option (List ((Nat × Nat) × Nat)) :=
  if area.height < 2 then some []
  else if barWidth + barGap = 0 then none
  else
    let maxIndex := min (area.width / (barWidth + barGap)) data.length
    let shown := data.take maxIndex
    some (shown.enum.flatMap (fun iv =>
      let value := iv.2.2 * (area.height - 1) * 8 / scalingDivisor maxSetting data
      (barRows (area.height - 1) value).flatMap (fun jl =>
        (List.range barWidth).map (fun x =>
          ((area.x + iv.1 * (barWidth + barGap) + x, area.y + jl.1), jl.2)))))

/-- C10: for every data set and drawing area, the bar-height scaling
divisor is at least 1 — even when all values are 0 or the data is empty —
so the scaling division in `render` never divides by zero; with the bar
geometry every call site uses (`bar_width + bar_gap > 0`: the defaults are
1 and 1, `tui.rs` sets 10 and 1) `render` produces a defined write list,
and whenever the chart area's height is less than 2 it returns without
writing any bar cells. -/
theorem render_safe (data : List (String × Nat)) (area : Rect)
    (barWidth barGap : Nat) (maxSetting : Option Nat)
    (hb : 0 < barWidth + barGap) :
    1 ≤ scalingDivisor maxSetting data ∧
    (BarChart.render data area barWidth barGap maxSetting).isSome = true ∧
    (area.height < 2 →
      BarChart.render data area barWidth barGap maxSetting = some []) := by
  refine ⟨Nat.le_max_right _ 1, ?_, ?_⟩
  · unfold BarChart.render
    by_cases hh : area.height < 2
    · rw [if_pos hh]
      rfl
    · rw [if_neg hh, if_neg (by omega)]
      rfl
  · intro hh
    unfold BarChart.render
    rw [if_pos hh]

/-- Witness for C10: the `tui.rs` bar geometry (width 10, gap 1) on a
one-bar data set; a 1-row-high area yields an empty write list. -/
theorem render_safe_witness :
    0 < 10 + 1 ∧
    (1 ≤ scalingDivisor none [("div", 3)] ∧
      (BarChart.render [("div", 3)] ⟨0, 0, 40, 1⟩ 10 1 none).isSome = true ∧
      (Rect.height ⟨0, 0, 40, 1⟩ < 2 →
        BarChart.render [("div", 3)] ⟨0, 0, 40, 1⟩ 10 1 none = some [])) :=
  ⟨by decide, render_safe [("div", 3)] ⟨0, 0, 40, 1⟩ 10 1 none (by decide)⟩

end Quotelementa
